import Mathlib

/-!
Shallow embedding of the Drum-helper playback core.

The playback scheduling core of the repository lives in
`src/js/SongManager.js` (position clock, tick handler, transport
commands) and `src/js/AudioManager.js` (subdivision profiles and the
click-selection policy), wired together by `src/js/script.js` and with
input validation helpers in `src/js/utils.js`.  The definitions below
translate those functions; timer handles are modelled as an opaque
`Option Nat`, and UI / audio side effects are modelled as explicit
outputs of the tick handler.
-/

namespace DrumHelper

/-- The rhythmic subdivision kinds of `AudioManager.subdivision`
(`quarter`, `eighth`, `sixteenth`, `triplet`). -/
inductive SubKind : Type
  | quarter
  | eighth
  | sixteenth
  | triplet
  deriving DecidableEq, Repr

/-- One entry of the `AudioManager.subdivisionSettings` table. -/
structure SubProfile where
  multiplier : Nat
  name : String
  clicksPerBeat : Nat
  accent : List Nat
  deriving DecidableEq, Repr

/-- `AudioManager.subdivisionSettings` (AudioManager.js lines 19-24). -/
def subdivisionSettings : SubKind → SubProfile
  | .quarter => ⟨1, "Noires", 1, [0]⟩
  | .eighth => ⟨2, "Croches", 2, [0]⟩
  | .sixteenth => ⟨4, "Doubles-croches", 4, [0]⟩
  | .triplet => ⟨3, "Triolets", 3, [0]⟩

/-- A song section `{name, measures}` as stored in `sections`. -/
structure Section where
  name : String
  measures : Nat
  deriving DecidableEq, Repr

/-- Song data as passed to `SongManager.loadSongData` (a stored song or
the form data).  `subdivision` is optional: the source reads
`songData.subdivision || 'quarter'`. -/
structure SongData where
  tempo : Int
  sections : List Section
  title : String
  subdivision : Option SubKind
  deriving DecidableEq, Repr

/-- The `AudioManager` state fields the playback core reads. -/
structure AMState where
  metronomeEnabled : Bool
  voiceEnabled : Bool
  measureAnnouncementEnabled : Bool
  subdivision : SubKind
  deriving DecidableEq, Repr

/-- The `SongManager` state (constructor, SongManager.js lines 7-24),
together with the `AudioManager` it holds a reference to.  `intervalId`
is an opaque timer handle (`none` = no timer). -/
structure SMState where
  audio : AMState
  isPlaying : Bool
  currentSection : Nat
  currentMeasure : Nat
  currentBeat : Nat
  currentSubdivision : Nat
  intervalId : Option Nat
  tempo : Int
  sections : List Section
  songTitle : String
  subdivision : SubKind
  deriving DecidableEq, Repr

/-- The three click sounds: `playDownbeat` (1200 Hz), `playBeat`
(800 Hz full click), `playSubdivisionBeat` (soft subdivision click). -/
inductive ClickEvent : Type
  | Downbeat
  | FullClick
  | SoftClick
  deriving DecidableEq, Repr

/-- `AudioManager.getSubdivisionSettings`. -/
def getSubdivisionSettings (am : AMState) : SubProfile :=
  subdivisionSettings am.subdivision

/-- `AudioManager.getSubdivisionInterval` (milliseconds between clicks,
as an exact rational to avoid floating point). -/
def getSubdivisionInterval (am : AMState) (tempo : ℚ) : ℚ :=
  let beatInterval := 60000 / tempo
  let settings := subdivisionSettings am.subdivision
  beatInterval / settings.multiplier

/-- The click chosen by `AudioManager.playSubdivisionClick`
(AudioManager.js lines 398-413), ignoring the `metronomeEnabled` guard. -/
def clickFor (subdivision : SubKind) (subdivisionIndex : Nat)
    (isDownbeat : Bool) : ClickEvent :=
  let settings := subdivisionSettings subdivision
  let isAccented := settings.accent.contains subdivisionIndex
  if isDownbeat then .Downbeat
  else if subdivision = .quarter ∨ isAccented = true then .FullClick
  else .SoftClick

/-- `AudioManager.playSubdivisionClick` including the early return when
the metronome is disabled (`none` = no sound). -/
def playSubdivisionClick (am : AMState) (subdivisionIndex : Nat)
    (isDownbeat : Bool) : Option ClickEvent :=
  if am.metronomeEnabled = false then none
  else some (clickFor am.subdivision subdivisionIndex isDownbeat)

/-- Observable effects of one `processSubdivision` call: the beat flash,
the click played, the look-ahead announcement text, and whether
`completeSong` ran (which emits the completion notification and, when
voice is enabled, the "End of song" announcement). -/
structure TickOutput where
  flash : Bool
  click : Option ClickEvent
  announcement : Option String
  songEnd : Bool
  deriving DecidableEq, Repr

/-- The output of a tick that does nothing. -/
def TickOutput.silent : TickOutput := ⟨false, none, none, false⟩

/-- `SongManager.pause` (SongManager.js lines 100-110): clear the timer,
mark not playing; everything else untouched. -/
def pause (s : SMState) : SMState :=
  { s with isPlaying := false, intervalId := none }

/-- `SongManager.stop` (lines 115-126): pause, then reset the position. -/
def stop (s : SMState) : SMState :=
  { pause s with currentSection := 0, currentMeasure := 0,
                 currentBeat := 0, currentSubdivision := 0 }

/-- `SongManager.completeSong` (lines 217-229): stops and resets; its
announcements are reported through `TickOutput.songEnd`. -/
def completeSong (s : SMState) : SMState :=
  stop s

/-- The pre-advance observable part of `SongManager.processSubdivision`
(lines 145-173): flash on the first subdivision of a beat, the click for
the current position, and the look-ahead "Next: ..." announcement on the
downbeat of the last measure of a section that has a successor.
The source compares `currentMeasure === measures - 1` on JS numbers;
over `Nat` this is written `currentMeasure + 1 = measures`, which agrees
for every `measures : Nat`. -/
def tickSignals (s : SMState) : TickOutput :=
  let isFirstSubdivisionInBeat := s.currentSubdivision == 0
  let isDownbeat := s.currentBeat == 0 && isFirstSubdivisionInBeat
  let click := playSubdivisionClick s.audio s.currentSubdivision isDownbeat
  let announcement : Option String :=
    match s.sections[s.currentSection]? with
    | some currentSectionData =>
      if isDownbeat = true ∧ s.audio.voiceEnabled = true
          ∧ s.currentSection + 1 < s.sections.length
          ∧ s.currentMeasure + 1 = currentSectionData.measures then
        match s.sections[s.currentSection + 1]? with
        | some nextSection =>
          let measureText :=
            if s.audio.measureAnnouncementEnabled then
              ", " ++ toString nextSection.measures ++ " measures"
            else ""
          some ("Next: " ++ nextSection.name ++ measureText)
        | none => none
      else none
    | none => none
  ⟨isFirstSubdivisionInBeat, click, announcement, false⟩

/-- `SongManager.processSubdivision` (lines 142-204): guard on
`isPlaying`, emit the pre-advance signals, then advance
subdivision → beat → measure → section, calling `completeSong` when the
last section finishes. -/
def processSubdivision (s : SMState) : SMState × TickOutput :=
  if s.isPlaying = false then (s, TickOutput.silent)
  else
    let settings := getSubdivisionSettings s.audio
    let out := tickSignals s
    let sub1 := s.currentSubdivision + 1
    if sub1 ≥ settings.clicksPerBeat then
      let beat1 := s.currentBeat + 1
      if beat1 ≥ 4 then
        let meas1 := s.currentMeasure + 1
        match s.sections[s.currentSection]? with
        | some currentSectionData =>
          if meas1 ≥ currentSectionData.measures then
            let sec1 := s.currentSection + 1
            if sec1 ≥ s.sections.length then
              (completeSong
                 { s with currentSubdivision := 0, currentBeat := 0,
                          currentMeasure := 0, currentSection := sec1 },
               { out with songEnd := true })
            else
              ({ s with currentSubdivision := 0, currentBeat := 0,
                        currentMeasure := 0, currentSection := sec1 }, out)
          else
            ({ s with currentSubdivision := 0, currentBeat := 0,
                      currentMeasure := meas1 }, out)
        | none =>
            ({ s with currentSubdivision := 0, currentBeat := 0,
                      currentMeasure := meas1 }, out)
      else
        ({ s with currentSubdivision := 0, currentBeat := beat1 }, out)
    else
      ({ s with currentSubdivision := sub1 }, out)

/-- `SongManager.loadSongData` (lines 30-45) with the song data supplied
explicitly (the `null` branch reads the same shape from the form):
plain field assignment, no validation, no position reset. -/
def loadSongData (s : SMState) (songData : SongData) : SMState :=
  { s with tempo := songData.tempo, sections := songData.sections,
           songTitle := songData.title,
           subdivision := songData.subdivision.getD .quarter }

/-- Observable outcome of `SongManager.play`: whether the metronome
interval was started, and the "Starting with: ..." announcement. -/
structure PlayOutput where
  started : Bool
  startAnnouncement : Option String
  deriving DecidableEq, Repr

/-- `SongManager.play` (lines 50-95).  `formData` is what
`uiManager.getFormData()` would return if the reload branch runs.
When the section list is empty it shows an error notification and
returns without starting. -/
def play (formData : SongData) (s : SMState) : SMState × PlayOutput :=
  let s1 := if s.sections.length = 0 ∨ s.songTitle = "" then
      loadSongData s formData
    else s
  if s1.sections.length = 0 then (s1, ⟨false, none⟩)
  else
    let s2 := { s1 with isPlaying := true }
    let startAnnouncement : Option String :=
      if s2.audio.voiceEnabled = true ∧ s2.currentSection < s2.sections.length then
        match s2.sections[s2.currentSection]? with
        | some sec =>
          let measureText :=
            if s2.audio.measureAnnouncementEnabled then
              ", " ++ toString sec.measures ++ " measures"
            else ""
          some ("Starting with: " ++ sec.name ++ measureText)
        | none => none
      else none
    ({ s2 with intervalId := some 0 }, ⟨true, startAnnouncement⟩)

namespace Utils

/-- `Utils.validateTempo` (utils.js lines 46-50).  `none` stands for a
`NaN` parse result. -/
def validateTempo : Option Int → Int
  | none => 120
  | some num => min (max num 60) 200

/-- `Utils.validateMeasures` (utils.js lines 57-61). -/
def validateMeasures : Option Int → Int
  | none => 4
  | some num => min (max num 1) 32

end Utils

/-- `SongManager.setTempo` (lines 244-261).  The returned flag records
whether a delayed restart of the driver was scheduled. -/
def setTempo (s : SMState) (newTempo : Option Int) : SMState × Bool :=
  let validatedTempo := Utils.validateTempo newTempo
  if s.tempo ≠ validatedTempo then
    let s1 := { s with tempo := validatedTempo }
    if s1.isPlaying then (pause s1, true) else (s1, false)
  else (s, false)

/-- `AudioManager.setSubdivision` (AudioManager.js lines 360-373): only
updates the audio-side subdivision field (every `SubKind` is a key of
the settings table, so the guard always passes). -/
def amSetSubdivision (am : AMState) (subdivision : SubKind) : AMState :=
  { am with subdivision := subdivision }

/-- `SongManager.setSubdivision` (SongManager.js lines 235-238): only
updates the song-manager-side subdivision field. -/
def smSetSubdivision (s : SMState) (newSubdivision : SubKind) : SMState :=
  { s with subdivision := newSubdivision }

/-- The subdivision-select handler as wired in `script.js` lines 74-82:
`audioManager.setSubdivision`, then `songManager.setSubdivision`, then a
pause plus delayed restart when playing.  The flag records whether the
restart was scheduled. -/
def onSubdivisionChange (s : SMState) (kind : SubKind) : SMState × Bool :=
  let s1 := { s with audio := amSetSubdivision s.audio kind }
  let s2 := smSetSubdivision s1 kind
  if s2.isPlaying then (pause s2, true) else (s2, false)

/-- `SongManager.jumpToSection` (lines 298-317).  The index is an `Int`
to model arbitrary JS numbers; out-of-range indices fall through the
guard and nothing happens.  The flag records whether a delayed restart
was scheduled. -/
def jumpToSection (s : SMState) (sectionIndex : Int) : SMState × Bool :=
  if 0 ≤ sectionIndex ∧ sectionIndex < (s.sections.length : Int) then
    let wasPlaying := s.isPlaying
    let s1 := if wasPlaying then pause s else s
    let s2 := { s1 with currentSection := sectionIndex.toNat,
                        currentMeasure := 0, currentBeat := 0 }
    (s2, wasPlaying)
  else (s, false)

/-! ### Trace machinery

To reason about repeated `processSubdivision` calls we abstract the four
position counters into a `Pos` record and give a closed form for the
position reached after `k` ticks.  `advancePos` is the advance part of
`processSubdivision` (lines 175-201) expressed on `Pos`; the lemma
`processSubdivision_of_playing` below proves it agrees with the
translated tick handler. -/

/-- The four nested position counters of `SongManager`. -/
structure Pos where
  sec : Nat
  meas : Nat
  beat : Nat
  sub : Nat
  deriving DecidableEq, Repr

/-- Read the position counters of a state. -/
def SMState.pos (s : SMState) : Pos :=
  ⟨s.currentSection, s.currentMeasure, s.currentBeat, s.currentSubdivision⟩

/-- Overwrite the position counters of a state. -/
def SMState.setPos (s : SMState) (p : Pos) : SMState :=
  { s with currentSection := p.sec, currentMeasure := p.meas,
           currentBeat := p.beat, currentSubdivision := p.sub }

/-- The advance cascade of `processSubdivision` (lines 175-201) on a bare
position: `none` means the song completed. -/
def advancePos (secs : List Section) (c : Nat) (p : Pos) : Option Pos :=
  let sub1 := p.sub + 1
  if sub1 ≥ c then
    let beat1 := p.beat + 1
    if beat1 ≥ 4 then
      let meas1 := p.meas + 1
      match secs[p.sec]? with
      | some sec =>
        if meas1 ≥ sec.measures then
          let sec1 := p.sec + 1
          if sec1 ≥ secs.length then none
          else some ⟨sec1, 0, 0, 0⟩
        else some ⟨p.sec, meas1, 0, 0⟩
      | none => some ⟨p.sec, meas1, 0, 0⟩
    else some ⟨p.sec, p.meas, beat1, 0⟩
  else some ⟨p.sec, p.meas, p.beat, sub1⟩

/-- The state after `k` calls of `processSubdivision`. -/
def stateAfter (s : SMState) : Nat → SMState
  | 0 => s
  | k + 1 => (processSubdivision (stateAfter s k)).1

/-- The output of call number `k` (0-based) of `processSubdivision`. -/
def outputAt (s : SMState) (k : Nat) : TickOutput :=
  (processSubdivision (stateAfter s k)).2

/-- Total number of ticks in a song at `c` clicks per beat
(4 beats per measure are hard-coded in the source). -/
def totalTicks (c : Nat) : List Section → Nat
  | [] => 0
  | sec :: rest => sec.measures * 4 * c + totalTicks c rest

/-- Number of ticks strictly before section `i` starts. -/
def cumTicks (c : Nat) : List Section → Nat → Nat
  | _, 0 => 0
  | [], _ + 1 => 0
  | sec :: rest, i + 1 => sec.measures * 4 * c + cumTicks c rest i

/-- Closed form for the position at tick `k` (0-based). -/
def posOf (c : Nat) : List Section → Nat → Pos
  | [], _ => ⟨0, 0, 0, 0⟩
  | sec :: rest, k =>
    if k < sec.measures * 4 * c then ⟨0, k / c / 4, k / c % 4, k % c⟩
    else
      let p := posOf c rest (k - sec.measures * 4 * c)
      ⟨p.sec + 1, p.meas, p.beat, p.sub⟩

/-- The tick index at which a given position is played. -/
def rank (c : Nat) (secs : List Section) (p : Pos) : Nat :=
  cumTicks c secs p.sec + (p.meas * 4 + p.beat) * c + p.sub

/-- A loadable song per the claims: at least one section and every
section with at least one measure. -/
def validSong (secs : List Section) : Prop :=
  secs ≠ [] ∧ ∀ sec ∈ secs, 1 ≤ sec.measures

/-- A position that denotes a real location in the song. -/
def validPos (c : Nat) (secs : List Section) (p : Pos) : Prop :=
  ∃ sec, secs[p.sec]? = some sec
    ∧ p.meas < sec.measures ∧ p.beat < 4 ∧ p.sub < c

/-- The tick of the look-ahead announcement for the section after `i`:
the downbeat of the last measure of section `i`, whose measure count is
`m`. -/
def lookTick (c : Nat) (secs : List Section) (i m : Nat) : Nat :=
  cumTicks c secs i + (m - 1) * 4 * c

/-! ### Concrete states used by witnesses and counterexamples -/

/-- Audio flags with everything enabled, quarter subdivision. -/
def demoAM : AMState := ⟨true, true, true, .quarter⟩

/-- The two-section example song of the spec. -/
def demoSong : List Section := [⟨"Intro", 2⟩, ⟨"Verse", 4⟩]

/-- A paused state mid-song over the demo song. -/
def demoPaused : SMState :=
  ⟨demoAM, false, 1, 2, 3, 0, none, 120, demoSong, "Demo", .quarter⟩

/-- A playing sixteenth-note state three subdivisions into a beat. -/
def cexSixteenth : SMState :=
  ⟨⟨true, true, true, .sixteenth⟩, true, 0, 0, 0, 3, some 0, 120,
   [⟨"A", 4⟩], "T", .sixteenth⟩

/-- A paused state whose position is away from the origin. -/
def cexMidState : SMState :=
  ⟨demoAM, false, 0, 1, 2, 0, none, 120, [⟨"Old", 4⟩], "Old", .quarter⟩

/-- A song with an empty name and zero measures in its only section. -/
def cexBadSong : SongData := ⟨150, [⟨"A", 0⟩], "Bad", none⟩

/-- A paused eighth-note state one subdivision into a beat. -/
def cexJumpState : SMState :=
  ⟨⟨true, true, true, .eighth⟩, false, 1, 3, 2, 1, none, 120,
   [⟨"A", 4⟩, ⟨"B", 2⟩], "T", .eighth⟩

/-- A playing quarter-note state at the origin of a one-section song. -/
def demoPlayingQuarter : SMState :=
  ⟨demoAM, true, 0, 0, 0, 0, some 0, 120, [⟨"Solo", 2⟩], "Solo", .quarter⟩

/-! ### Basic lemmas -/

theorem clicksPerBeat_pos (kind : SubKind) :
    1 ≤ (subdivisionSettings kind).clicksPerBeat := by
  cases kind <;> simp [subdivisionSettings]

theorem validateTempo_range (b : Option Int) :
    60 ≤ Utils.validateTempo b ∧ Utils.validateTempo b ≤ 200 := by
  cases b with
  | none => simp [Utils.validateTempo]
  | some n => simp only [Utils.validateTempo]; omega

/-- C8: for every input, `setTempo` leaves the tempo inside `[60, 200]`;
`setTempo 500` yields 200 and `setTempo 10` yields 60. -/
theorem setTempo_clamps (s : SMState) (bpm : Option Int) :
    (60 ≤ (setTempo s bpm).1.tempo ∧ (setTempo s bpm).1.tempo ≤ 200)
    ∧ (setTempo s (some 500)).1.tempo = 200
    ∧ (setTempo s (some 10)).1.tempo = 60 := by
  refine ⟨?_, ?_, ?_⟩
  · have h := validateTempo_range bpm
    simp only [setTempo]
    split_ifs <;> simp [pause] <;> omega
  · simp only [setTempo, Utils.validateTempo]
    norm_num
    split_ifs <;> simp_all [pause]
  · simp only [setTempo, Utils.validateTempo]
    norm_num
    split_ifs <;> simp_all [pause]

/-- C9: `stop` resets the position to the origin, stops playback, and is
idempotent: a second `stop` changes nothing. -/
theorem stop_resets_and_idempotent (s : SMState) :
    (stop s).currentSection = 0 ∧ (stop s).currentMeasure = 0
    ∧ (stop s).currentBeat = 0 ∧ (stop s).currentSubdivision = 0
    ∧ (stop s).isPlaying = false
    ∧ stop (stop s) = stop s := by
  simp [stop, pause]

/-- C10: when `isPlaying` is false, `processSubdivision` changes no
counter and emits no click or announcement; in particular a tick that
fires after `pause` or `stop` has no effect. -/
theorem processSubdivision_noop_when_paused (s : SMState)
    (h : s.isPlaying = false) :
    processSubdivision s = (s, TickOutput.silent)
    ∧ processSubdivision (pause s) = (pause s, TickOutput.silent)
    ∧ processSubdivision (stop s) = (stop s, TickOutput.silent) := by
  refine ⟨?_, ?_, ?_⟩ <;> simp [processSubdivision, pause, stop, h]

/-- Witness for C10 at a concrete paused state. -/
theorem processSubdivision_noop_when_paused_witness :
    processSubdivision demoPaused = (demoPaused, TickOutput.silent)
    ∧ processSubdivision (pause demoPaused)
        = (pause demoPaused, TickOutput.silent)
    ∧ processSubdivision (stop demoPaused)
        = (stop demoPaused, TickOutput.silent) :=
  processSubdivision_noop_when_paused demoPaused rfl

/-- C7: `pause` clears the driver and playing flag while leaving song,
tempo, subdivision and the whole position unchanged; it is idempotent;
and `play` on the paused state resumes at exactly the same position. -/
theorem pause_frame_and_resume (s : SMState) (d : SongData)
    (hsec : s.sections ≠ []) (htitle : s.songTitle ≠ "") :
    (pause s).currentSection = s.currentSection
    ∧ (pause s).currentMeasure = s.currentMeasure
    ∧ (pause s).currentBeat = s.currentBeat
    ∧ (pause s).currentSubdivision = s.currentSubdivision
    ∧ (pause s).sections = s.sections
    ∧ (pause s).songTitle = s.songTitle
    ∧ (pause s).tempo = s.tempo
    ∧ (pause s).subdivision = s.subdivision
    ∧ (pause s).audio = s.audio
    ∧ (pause s).isPlaying = false
    ∧ (pause s).intervalId = none
    ∧ pause (pause s) = pause s
    ∧ (play d (pause s)).1.currentSection = s.currentSection
    ∧ (play d (pause s)).1.currentMeasure = s.currentMeasure
    ∧ (play d (pause s)).1.currentBeat = s.currentBeat
    ∧ (play d (pause s)).1.currentSubdivision = s.currentSubdivision
    ∧ (play d (pause s)).1.isPlaying = true := by
  have hs0 : ¬(s.sections.length = 0) := by
    simpa [List.length_eq_zero] using hsec
  simp [play, pause, hs0, htitle]

/-- Witness for C7: the instantiation at a concrete paused mid-song
state. -/
theorem pause_frame_and_resume_witness :
    (pause demoPaused).currentSection = demoPaused.currentSection
    ∧ (pause demoPaused).currentMeasure = demoPaused.currentMeasure
    ∧ (pause demoPaused).currentBeat = demoPaused.currentBeat
    ∧ (pause demoPaused).currentSubdivision = demoPaused.currentSubdivision
    ∧ (pause demoPaused).sections = demoPaused.sections
    ∧ (pause demoPaused).songTitle = demoPaused.songTitle
    ∧ (pause demoPaused).tempo = demoPaused.tempo
    ∧ (pause demoPaused).subdivision = demoPaused.subdivision
    ∧ (pause demoPaused).audio = demoPaused.audio
    ∧ (pause demoPaused).isPlaying = false
    ∧ (pause demoPaused).intervalId = none
    ∧ pause (pause demoPaused) = pause demoPaused
    ∧ (play cexBadSong (pause demoPaused)).1.currentSection
        = demoPaused.currentSection
    ∧ (play cexBadSong (pause demoPaused)).1.currentMeasure
        = demoPaused.currentMeasure
    ∧ (play cexBadSong (pause demoPaused)).1.currentBeat
        = demoPaused.currentBeat
    ∧ (play cexBadSong (pause demoPaused)).1.currentSubdivision
        = demoPaused.currentSubdivision
    ∧ (play cexBadSong (pause demoPaused)).1.isPlaying = true :=
  pause_frame_and_resume demoPaused cexBadSong (by decide) (by decide)

/-- C3: with `isDownbeat` computed as in `processSubdivision` and a
subdivision index valid for the active profile, the click is the
downbeat sound exactly when `beat = 0 ∧ subIdx = 0`; otherwise it is the
full click exactly when the index is accented (which in quarter mode is
every valid tick, so quarter mode never produces a soft click); and
otherwise the soft subdivision click. -/
theorem clickFor_decision (kind : SubKind) (subIdx beat : Nat)
    (h : subIdx < (subdivisionSettings kind).clicksPerBeat) :
    (clickFor kind subIdx (beat == 0 && subIdx == 0) = .Downbeat
      ↔ (beat = 0 ∧ subIdx = 0))
    ∧ (clickFor kind subIdx (beat == 0 && subIdx == 0) = .FullClick
      ↔ (¬(beat = 0 ∧ subIdx = 0)
         ∧ subIdx ∈ (subdivisionSettings kind).accent))
    ∧ (clickFor kind subIdx (beat == 0 && subIdx == 0) = .SoftClick
      ↔ (¬(beat = 0 ∧ subIdx = 0)
         ∧ subIdx ∉ (subdivisionSettings kind).accent))
    ∧ (kind = .quarter → subIdx ∈ (subdivisionSettings kind).accent)
    ∧ (kind = .quarter
       → clickFor kind subIdx (beat == 0 && subIdx == 0) ≠ .SoftClick) := by
  cases kind <;>
    simp only [subdivisionSettings] at h <;>
    interval_cases subIdx <;>
    by_cases hb : beat = 0 <;>
    simp [clickFor, subdivisionSettings, hb]

/-- Witness for C3: at eighth subdivision, index 1, beat 0, the policy
yields the soft click. -/
theorem clickFor_decision_witness :
    (1 : Nat) < (subdivisionSettings .eighth).clicksPerBeat
    ∧ clickFor .eighth 1 ((0 : Nat) == 0 && (1 : Nat) == 0) = .SoftClick :=
  ⟨by decide, by
    have h := clickFor_decision .eighth 1 0 (by decide)
    exact h.2.2.1.mpr (by decide)⟩

/-- C2 counterexample: in a playing sixteenth-note state at subdivision
index 3, switching to quarter through the wired setSubdivision pair
leaves `currentSubdivision = 3`, which violates
`currentSubdivision < clicksPerBeat` for the new profile. -/
theorem setSubdivision_cex :
    (onSubdivisionChange cexSixteenth .quarter).1.currentSubdivision = 3
    ∧ ¬((onSubdivisionChange cexSixteenth .quarter).1.currentSubdivision
        < (subdivisionSettings
            (onSubdivisionChange cexSixteenth
              .quarter).1.audio.subdivision).clicksPerBeat) := by
  decide

/-- C2 (amended): the wired `setSubdivision` pair changes both
subdivision fields but leaves `currentSubdivision` unchanged, so the
invariant can fail right after a mid-beat change; the next
`processSubdivision` call on any playing state restores
`currentSubdivision < clicksPerBeat`. -/
theorem setSubdivision_keeps_index_next_tick_restores (s : SMState)
    (kind : SubKind) (h : s.isPlaying = true) :
    (onSubdivisionChange s kind).1.currentSubdivision = s.currentSubdivision
    ∧ (onSubdivisionChange s kind).1.audio.subdivision = kind
    ∧ (onSubdivisionChange s kind).1.subdivision = kind
    ∧ (∀ t : SMState, t.isPlaying = true →
        (processSubdivision t).1.currentSubdivision
          < (subdivisionSettings
              (processSubdivision t).1.audio.subdivision).clicksPerBeat) := by
  refine ⟨?_, ?_, ?_, ?_⟩
  · simp [onSubdivisionChange, amSetSubdivision, smSetSubdivision, pause, h]
  · simp [onSubdivisionChange, amSetSubdivision, smSetSubdivision, pause, h]
  · simp [onSubdivisionChange, amSetSubdivision, smSetSubdivision, pause, h]
  · intro t ht
    have hc := clicksPerBeat_pos t.audio.subdivision
    simp only [processSubdivision, ht, getSubdivisionSettings]
    norm_num
    by_cases h1 : (subdivisionSettings t.audio.subdivision).clicksPerBeat
        ≤ t.currentSubdivision + 1
    · simp only [if_pos h1]
      by_cases h2 : 4 ≤ t.currentBeat + 1
      · simp only [if_pos h2]
        cases hget : t.sections[t.currentSection]? with
        | some sec =>
          simp only [hget]
          split_ifs <;> simp [completeSong, stop, pause] <;> omega
        | none =>
          simp only [hget]
          omega
      · simp only [if_neg h2]
        omega
    · simp only [if_neg h1]
      omega

/-- Witness for C2 (amended) at the concrete sixteenth-note state. -/
theorem setSubdivision_keeps_index_next_tick_restores_witness :
    cexSixteenth.isPlaying = true
    ∧ (onSubdivisionChange cexSixteenth
        .quarter).1.currentSubdivision = cexSixteenth.currentSubdivision
    ∧ (processSubdivision cexSixteenth).1.currentSubdivision
        < (subdivisionSettings
            (processSubdivision cexSixteenth).1.audio.subdivision).clicksPerBeat :=
  ⟨rfl,
   (setSubdivision_keeps_index_next_tick_restores cexSixteenth .quarter rfl).1,
   (setSubdivision_keeps_index_next_tick_restores cexSixteenth
     .quarter rfl).2.2.2 cexSixteenth rfl⟩

/-- C5 counterexample: loading a song whose only section has
`measures = 0` raises no error, stores the section verbatim, leaves the
position where it was, and a subsequent `play` starts playback. -/
theorem loadSongData_cex :
    (loadSongData cexMidState cexBadSong).sections = [⟨"A", 0⟩]
    ∧ (loadSongData cexMidState cexBadSong).currentMeasure = 1
    ∧ (loadSongData cexMidState cexBadSong).currentBeat = 2
    ∧ (play cexBadSong (loadSongData cexMidState cexBadSong)).2.started = true
    ∧ (play cexBadSong (loadSongData cexMidState cexBadSong)).1.isPlaying
        = true := by
  decide

/-- C5 (amended): `loadSongData` performs no validation and no position
reset: the song fields are assigned verbatim (empty section lists and
sections with `measures < 1` included) and the position/playing fields
are untouched; `play` declines to start exactly when the section list is
empty after the optional form reload, and otherwise starts playback. -/
theorem loadSongData_no_validation (s : SMState) (d fd : SongData) :
    (loadSongData s d).sections = d.sections
    ∧ (loadSongData s d).tempo = d.tempo
    ∧ (loadSongData s d).songTitle = d.title
    ∧ (loadSongData s d).currentSection = s.currentSection
    ∧ (loadSongData s d).currentMeasure = s.currentMeasure
    ∧ (loadSongData s d).currentBeat = s.currentBeat
    ∧ (loadSongData s d).currentSubdivision = s.currentSubdivision
    ∧ (loadSongData s d).isPlaying = s.isPlaying
    ∧ ((play fd s).2.started = true ↔ (play fd s).1.sections ≠ [])
    ∧ ((play fd s).2.started = true → (play fd s).1.isPlaying = true) := by
  refine ⟨rfl, rfl, rfl, rfl, rfl, rfl, rfl, rfl, ?_, ?_⟩ <;>
    · simp only [play]
      split_ifs <;> simp_all [List.length_eq_zero, loadSongData]

/-- Witness for C5 (amended) at the concrete state and songs. -/
theorem loadSongData_no_validation_witness :
    (loadSongData cexMidState cexBadSong).sections = cexBadSong.sections
    ∧ ((play cexBadSong cexMidState).2.started = true
        ↔ (play cexBadSong cexMidState).1.sections ≠ []) :=
  ⟨(loadSongData_no_validation cexMidState cexBadSong cexBadSong).1,
   (loadSongData_no_validation cexMidState cexBadSong cexBadSong).2.2.2.2.2.2.2.2.1⟩

/-- C6 counterexample: a valid jump leaves `currentSubdivision`
unchanged (here 1), contradicting the claimed reset of the subdivision
index to 0. -/
theorem jumpToSection_cex :
    (jumpToSection cexJumpState 0).1.currentSection = 0
    ∧ (jumpToSection cexJumpState 0).1.currentMeasure = 0
    ∧ (jumpToSection cexJumpState 0).1.currentBeat = 0
    ∧ (jumpToSection cexJumpState 0).1.currentSubdivision = 1
    ∧ (jumpToSection cexJumpState 0).1.currentSubdivision ≠ 0 := by
  decide

/-- C6 (amended): an out-of-range index is silently ignored (no error,
all state unchanged); a valid index sets `currentSection` and resets
`currentMeasure` and `currentBeat` to 0 while leaving
`currentSubdivision` untouched; when not playing there is no timer side
effect, and when playing the handler pauses and schedules a restart. -/
theorem jumpToSection_partial_reset (s : SMState) (idx : Int) :
    (¬(0 ≤ idx ∧ idx < (s.sections.length : Int))
      → jumpToSection s idx = (s, false))
    ∧ ((0 ≤ idx ∧ idx < (s.sections.length : Int)) →
        ((jumpToSection s idx).1.currentSection = idx.toNat
         ∧ (jumpToSection s idx).1.currentMeasure = 0
         ∧ (jumpToSection s idx).1.currentBeat = 0
         ∧ (jumpToSection s idx).1.currentSubdivision = s.currentSubdivision
         ∧ (jumpToSection s idx).1.sections = s.sections
         ∧ (jumpToSection s idx).1.tempo = s.tempo
         ∧ (s.isPlaying = false →
             (jumpToSection s idx).1.isPlaying = false
             ∧ (jumpToSection s idx).1.intervalId = s.intervalId
             ∧ (jumpToSection s idx).2 = false)
         ∧ (s.isPlaying = true →
             (jumpToSection s idx).1.isPlaying = false
             ∧ (jumpToSection s idx).2 = true))) := by
  constructor
  · intro h
    simp [jumpToSection, h]
  · intro h
    cases hp : s.isPlaying <;> simp [jumpToSection, h, hp, pause]

/-- Witness for C6 (amended): both branches exercised at concrete
inputs over the same two-section song. -/
theorem jumpToSection_partial_reset_witness :
    (¬(0 ≤ (5 : Int) ∧ (5 : Int) < (cexJumpState.sections.length : Int))
      → jumpToSection cexJumpState 5 = (cexJumpState, false))
    ∧ ((0 ≤ (0 : Int) ∧ (0 : Int) < (cexJumpState.sections.length : Int)) →
        (jumpToSection cexJumpState 0).1.currentSubdivision
          = cexJumpState.currentSubdivision) :=
  ⟨(jumpToSection_partial_reset cexJumpState 5).1,
   fun h => ((jumpToSection_partial_reset cexJumpState 0).2 h).2.2.2.1⟩

/-! ### Position arithmetic lemmas -/

theorem setPos_self (s : SMState) : s.setPos s.pos = s := rfl

theorem setPos_setPos (s : SMState) (p q : Pos) :
    (s.setPos p).setPos q = s.setPos q := rfl

theorem pos_setPos (s : SMState) (p : Pos) : (s.setPos p).pos = p := rfl

theorem clicksPerBeat_cases (kind : SubKind) :
    (subdivisionSettings kind).clicksPerBeat = 1
    ∨ (subdivisionSettings kind).clicksPerBeat = 2
    ∨ (subdivisionSettings kind).clicksPerBeat = 3
    ∨ (subdivisionSettings kind).clicksPerBeat = 4 := by
  cases kind <;> simp [subdivisionSettings]

theorem totalTicks_cons (c : Nat) (sec : Section) (rest : List Section) :
    totalTicks c (sec :: rest) = sec.measures * 4 * c + totalTicks c rest :=
  rfl

theorem cumTicks_zero (c : Nat) (secs : List Section) :
    cumTicks c secs 0 = 0 := by
  cases secs <;> rfl

theorem cumTicks_cons_succ (c : Nat) (sec : Section) (rest : List Section)
    (i : Nat) :
    cumTicks c (sec :: rest) (i + 1)
      = sec.measures * 4 * c + cumTicks c rest i :=
  rfl

theorem posOf_cons_lt (c : Nat) (sec : Section) (rest : List Section)
    (k : Nat) (h : k < sec.measures * 4 * c) :
    posOf c (sec :: rest) k = ⟨0, k / c / 4, k / c % 4, k % c⟩ := by
  simp [posOf, h]

theorem posOf_cons_ge (c : Nat) (sec : Section) (rest : List Section)
    (k : Nat) (h : ¬(k < sec.measures * 4 * c)) :
    posOf c (sec :: rest) k
      = ⟨(posOf c rest (k - sec.measures * 4 * c)).sec + 1,
         (posOf c rest (k - sec.measures * 4 * c)).meas,
         (posOf c rest (k - sec.measures * 4 * c)).beat,
         (posOf c rest (k - sec.measures * 4 * c)).sub⟩ := by
  simp [posOf, h]

theorem posOf_zero (c : Nat) (hc : 1 ≤ c) (secs : List Section)
    (hne : secs ≠ []) (hval : ∀ sec ∈ secs, 1 ≤ sec.measures) :
    posOf c secs 0 = ⟨0, 0, 0, 0⟩ := by
  cases secs with
  | nil => exact absurd rfl hne
  | cons sec rest =>
    have hm : 1 ≤ sec.measures := hval sec (by simp)
    have hpos : 0 < sec.measures * 4 * c :=
      Nat.mul_pos (Nat.mul_pos hm (by norm_num)) hc
    simp [posOf, hpos]

theorem totalTicks_eq_zero (c : Nat) (hc : 1 ≤ c) (secs : List Section)
    (hval : ∀ sec ∈ secs, 1 ≤ sec.measures)
    (h : totalTicks c secs = 0) : secs = [] := by
  cases secs with
  | nil => rfl
  | cons sec rest =>
    exfalso
    have hm : 1 ≤ sec.measures := hval sec (by simp)
    have hpos : 0 < sec.measures * 4 * c :=
      Nat.mul_pos (Nat.mul_pos hm (by norm_num)) hc
    rw [totalTicks_cons] at h
    omega

theorem advancePos_shift (c : Nat) (sec : Section) (rest : List Section)
    (p : Pos) :
    advancePos (sec :: rest) c ⟨p.sec + 1, p.meas, p.beat, p.sub⟩
      = Option.map (fun q : Pos => ⟨q.sec + 1, q.meas, q.beat, q.sub⟩)
          (advancePos rest c p) := by
  cases hget : rest[p.sec]? with
  | some s2 =>
    simp only [advancePos, List.getElem?_cons_succ, List.length_cons, hget,
      ge_iff_le, Nat.add_le_add_iff_right]
    split_ifs <;> rfl
  | none =>
    simp only [advancePos, List.getElem?_cons_succ, List.length_cons, hget,
      ge_iff_le, Nat.add_le_add_iff_right]
    split_ifs <;> rfl

theorem advancePos_posOf (c : Nat) (hc4 : c = 1 ∨ c = 2 ∨ c = 3 ∨ c = 4) :
    ∀ secs : List Section, (∀ sec ∈ secs, 1 ≤ sec.measures) →
      ∀ k, k + 1 < totalTicks c secs →
        advancePos secs c (posOf c secs k) = some (posOf c secs (k + 1)) := by
  have hc : 1 ≤ c := by rcases hc4 with rfl | rfl | rfl | rfl <;> norm_num
  intro secs
  induction secs with
  | nil =>
    intro _ k hk
    simp [totalTicks] at hk
  | cons sec rest ih =>
    intro hval k hk
    have hm : 1 ≤ sec.measures := hval sec (by simp)
    have hval2 : ∀ s2 ∈ rest, 1 ≤ s2.measures := fun s2 hs =>
      hval s2 (by simp [hs])
    rw [totalTicks_cons] at hk
    by_cases hA : k + 1 < sec.measures * 4 * c
    · have hA0 : k < sec.measures * 4 * c := by omega
      rw [posOf_cons_lt _ _ _ _ hA0, posOf_cons_lt _ _ _ _ hA]
      simp only [advancePos, List.getElem?_cons_zero, List.length_cons]
      split_ifs <;>
        first
          | (exfalso; rcases hc4 with rfl | rfl | rfl | rfl <;> omega)
          | (simp only [Option.some.injEq, Pos.mk.injEq, true_and, and_true]
             rcases hc4 with rfl | rfl | rfl | rfl <;> omega)
    · by_cases hB : k < sec.measures * 4 * c
      · have hk1 : k + 1 = sec.measures * 4 * c := by omega
        have htr : 0 < totalTicks c rest := by omega
        have hrne : rest ≠ [] := by
          intro hrest
          rw [hrest] at htr
          simp [totalTicks] at htr
        have hrl : 0 < rest.length := List.length_pos.mpr hrne
        have hzero : k + 1 - sec.measures * 4 * c = 0 := by omega
        rw [posOf_cons_lt _ _ _ _ hB, posOf_cons_ge _ _ _ _ (by omega),
          hzero, posOf_zero c hc rest hrne hval2]
        simp only [advancePos, List.getElem?_cons_zero, List.length_cons]
        split_ifs <;>
          first
            | (exfalso; rcases hc4 with rfl | rfl | rfl | rfl <;> omega)
            | rfl
      · have hge1 : ¬(k + 1 < sec.measures * 4 * c) := by omega
        rw [posOf_cons_ge _ _ _ _ hB, posOf_cons_ge _ _ _ _ hge1,
          advancePos_shift]
        have hsub : k + 1 - sec.measures * 4 * c
            = (k - sec.measures * 4 * c) + 1 := by omega
        rw [hsub, ih hval2 (k - sec.measures * 4 * c) (by omega)]
        rfl

theorem advancePos_posOf_last (c : Nat)
    (hc4 : c = 1 ∨ c = 2 ∨ c = 3 ∨ c = 4) :
    ∀ secs : List Section, (∀ sec ∈ secs, 1 ≤ sec.measures) →
      ∀ k, k + 1 = totalTicks c secs →
        advancePos secs c (posOf c secs k) = none := by
  have hc : 1 ≤ c := by rcases hc4 with rfl | rfl | rfl | rfl <;> norm_num
  intro secs
  induction secs with
  | nil =>
    intro _ k hk
    simp [totalTicks] at hk
  | cons sec rest ih =>
    intro hval k hk
    have hm : 1 ≤ sec.measures := hval sec (by simp)
    have hval2 : ∀ s2 ∈ rest, 1 ≤ s2.measures := fun s2 hs =>
      hval s2 (by simp [hs])
    rw [totalTicks_cons] at hk
    by_cases hB : k < sec.measures * 4 * c
    · have htr : totalTicks c rest = 0 := by omega
      have hrnil : rest = [] := totalTicks_eq_zero c hc rest hval2 htr
      have hk1 : k + 1 = sec.measures * 4 * c := by omega
      rw [posOf_cons_lt _ _ _ _ hB]
      simp only [advancePos, List.getElem?_cons_zero, List.length_cons, hrnil,
        List.length_nil]
      split_ifs <;>
        first
          | (exfalso; rcases hc4 with rfl | rfl | rfl | rfl <;> omega)
          | rfl
    · have hsub : k - sec.measures * 4 * c + 1 = totalTicks c rest := by
        omega
      rw [posOf_cons_ge _ _ _ _ hB, advancePos_shift,
        ih hval2 (k - sec.measures * 4 * c) hsub]
      rfl

theorem posOf_valid (c : Nat) (hc4 : c = 1 ∨ c = 2 ∨ c = 3 ∨ c = 4) :
    ∀ secs : List Section, (∀ sec ∈ secs, 1 ≤ sec.measures) →
      ∀ k, k < totalTicks c secs → validPos c secs (posOf c secs k) := by
  intro secs
  induction secs with
  | nil =>
    intro _ k hk
    simp [totalTicks] at hk
  | cons sec rest ih =>
    intro hval k hk
    have hval2 : ∀ s2 ∈ rest, 1 ≤ s2.measures := fun s2 hs =>
      hval s2 (by simp [hs])
    rw [totalTicks_cons] at hk
    by_cases hB : k < sec.measures * 4 * c
    · rw [posOf_cons_lt _ _ _ _ hB]
      refine ⟨sec, by simp, ?_, ?_, ?_⟩ <;>
        (dsimp only; rcases hc4 with rfl | rfl | rfl | rfl <;> omega)
    · rw [posOf_cons_ge _ _ _ _ hB]
      obtain ⟨s2, hs2, hm2, hb2, hsub2⟩ :=
        ih hval2 (k - sec.measures * 4 * c) (by omega)
      exact ⟨s2, by simpa using hs2, hm2, hb2, hsub2⟩

theorem rank_posOf (c : Nat) (hc4 : c = 1 ∨ c = 2 ∨ c = 3 ∨ c = 4) :
    ∀ secs : List Section, (∀ sec ∈ secs, 1 ≤ sec.measures) →
      ∀ k, k < totalTicks c secs → rank c secs (posOf c secs k) = k := by
  intro secs
  induction secs with
  | nil =>
    intro _ k hk
    simp [totalTicks] at hk
  | cons sec rest ih =>
    intro hval k hk
    have hval2 : ∀ s2 ∈ rest, 1 ≤ s2.measures := fun s2 hs =>
      hval s2 (by simp [hs])
    rw [totalTicks_cons] at hk
    by_cases hB : k < sec.measures * 4 * c
    · rw [posOf_cons_lt _ _ _ _ hB]
      simp only [rank, cumTicks_zero]
      rcases hc4 with rfl | rfl | rfl | rfl <;> omega
    · rw [posOf_cons_ge _ _ _ _ hB]
      have ihr := ih hval2 (k - sec.measures * 4 * c) (by omega)
      simp only [rank, cumTicks_cons_succ] at ihr ⊢
      rcases hc4 with rfl | rfl | rfl | rfl <;> omega

theorem posOf_rank (c : Nat) (hc4 : c = 1 ∨ c = 2 ∨ c = 3 ∨ c = 4) :
    ∀ secs : List Section, (∀ sec ∈ secs, 1 ≤ sec.measures) →
      ∀ p : Pos, validPos c secs p →
        posOf c secs (rank c secs p) = p
        ∧ rank c secs p < totalTicks c secs := by
  intro secs
  induction secs with
  | nil =>
    intro _ p hp
    obtain ⟨s2, hs2, _⟩ := hp
    simp at hs2
  | cons sec rest ih =>
    intro hval p hp
    obtain ⟨psec, pmeas, pbeat, psub⟩ := p
    obtain ⟨s2, hs2, hm2, hb2, hsub2⟩ := hp
    dsimp only at hs2 hm2 hb2 hsub2
    have hval2 : ∀ s3 ∈ rest, 1 ≤ s3.measures := fun s3 hs =>
      hval s3 (by simp [hs])
    cases psec with
    | zero =>
      have hsec : sec = s2 := by simpa using hs2
      subst hsec
      have hlt : rank c (sec :: rest) ⟨0, pmeas, pbeat, psub⟩
          < sec.measures * 4 * c := by
        simp only [rank, cumTicks_zero]
        rcases hc4 with rfl | rfl | rfl | rfl <;> omega
      constructor
      · rw [posOf_cons_lt _ _ _ _ hlt]
        simp only [rank, cumTicks_zero, Pos.mk.injEq, true_and]
        rcases hc4 with rfl | rfl | rfl | rfl <;> omega
      · rw [totalTicks_cons]
        omega
    | succ j =>
      have hs2r : rest[j]? = some s2 := by simpa using hs2
      obtain ⟨ih1, ih2⟩ :=
        ih hval2 ⟨j, pmeas, pbeat, psub⟩ ⟨s2, hs2r, hm2, hb2, hsub2⟩
      have hrank : rank c (sec :: rest) ⟨j + 1, pmeas, pbeat, psub⟩
          = sec.measures * 4 * c + rank c rest ⟨j, pmeas, pbeat, psub⟩ := by
        simp only [rank, cumTicks_cons_succ]
        rcases hc4 with rfl | rfl | rfl | rfl <;> omega
      constructor
      · rw [hrank, posOf_cons_ge _ _ _ _ (by omega)]
        have hsub4 : sec.measures * 4 * c
              + rank c rest ⟨j, pmeas, pbeat, psub⟩
              - sec.measures * 4 * c
            = rank c rest ⟨j, pmeas, pbeat, psub⟩ := by omega
        rw [hsub4, ih1]
      · rw [hrank, totalTicks_cons]
        omega

theorem cumTicks_succ_of_get (c : Nat) :
    ∀ secs : List Section, ∀ i sec, secs[i]? = some sec →
      cumTicks c secs (i + 1) = cumTicks c secs i + sec.measures * 4 * c := by
  intro secs
  induction secs with
  | nil =>
    intro i sec h
    simp at h
  | cons s0 rest ih =>
    intro i sec h
    cases i with
    | zero =>
      have hsec : s0 = sec := by simpa using h
      subst hsec
      rw [cumTicks_cons_succ, cumTicks_zero, cumTicks_zero]
      simp
    | succ j =>
      have hr : rest[j]? = some sec := by simpa using h
      rw [cumTicks_cons_succ, cumTicks_cons_succ, ih j sec hr]
      ring

/-! ### Bridging the tick handler to the position-level advance -/

theorem setPos_sections (s : SMState) (p : Pos) :
    (s.setPos p).sections = s.sections := rfl

theorem setPos_audio (s : SMState) (p : Pos) :
    (s.setPos p).audio = s.audio := rfl

theorem setPos_isPlaying (s : SMState) (p : Pos) :
    (s.setPos p).isPlaying = s.isPlaying := rfl

theorem stop_setPos (s : SMState) (p : Pos) : stop (s.setPos p) = stop s :=
  rfl

theorem processSubdivision_not_playing (s : SMState)
    (h : s.isPlaying = false) :
    processSubdivision s = (s, TickOutput.silent) := by
  simp [processSubdivision, h]

theorem processSubdivision_of_playing (s : SMState)
    (h : s.isPlaying = true) :
    processSubdivision s =
      match advancePos s.sections
          (subdivisionSettings s.audio.subdivision).clicksPerBeat s.pos with
      | some p => (s.setPos p, tickSignals s)
      | none => (stop s, { tickSignals s with songEnd := true }) := by
  have hng : ¬(s.isPlaying = false) := by simp [h]
  cases hget : s.sections[s.currentSection]? with
  | some sec =>
    simp only [processSubdivision, advancePos, getSubdivisionSettings,
      SMState.pos, SMState.setPos, hget, if_neg hng]
    split_ifs <;> rfl
  | none =>
    simp only [processSubdivision, advancePos, getSubdivisionSettings,
      SMState.pos, SMState.setPos, hget, if_neg hng]
    split_ifs <;> rfl

theorem totalTicks_pos (c : Nat) (hc : 1 ≤ c) (secs : List Section)
    (hne : secs ≠ []) (hval : ∀ sec ∈ secs, 1 ≤ sec.measures) :
    0 < totalTicks c secs := by
  cases secs with
  | nil => exact absurd rfl hne
  | cons sec rest =>
    have hm : 1 ≤ sec.measures := hval sec (by simp)
    have hpos : 0 < sec.measures * 4 * c :=
      Nat.mul_pos (Nat.mul_pos hm (by norm_num)) hc
    rw [totalTicks_cons]
    omega

theorem stateAfter_succ (s : SMState) (k : Nat) :
    stateAfter s (k + 1) = (processSubdivision (stateAfter s k)).1 := rfl

theorem stateAfter_eq_setPos (s0 : SMState) (hplay : s0.isPlaying = true)
    (hpos : s0.pos = ⟨0, 0, 0, 0⟩) (hval : validSong s0.sections) :
    ∀ k, k < totalTicks
        (subdivisionSettings s0.audio.subdivision).clicksPerBeat
        s0.sections →
      stateAfter s0 k
        = s0.setPos (posOf
            (subdivisionSettings s0.audio.subdivision).clicksPerBeat
            s0.sections k) := by
  have hc4 := clicksPerBeat_cases s0.audio.subdivision
  have hc := clicksPerBeat_pos s0.audio.subdivision
  intro k
  induction k with
  | zero =>
    intro hk
    rw [posOf_zero _ hc s0.sections hval.1 hval.2, ← hpos, setPos_self]
    rfl
  | succ k ihk =>
    intro hk
    rw [stateAfter_succ, ihk (by omega)]
    have hplay2 : (s0.setPos (posOf
        (subdivisionSettings s0.audio.subdivision).clicksPerBeat
        s0.sections k)).isPlaying = true := hplay
    rw [processSubdivision_of_playing _ hplay2]
    simp only [setPos_sections, setPos_audio, pos_setPos]
    rw [advancePos_posOf _ hc4 s0.sections hval.2 k hk]
    rfl

theorem stateAfter_total (s0 : SMState) (hplay : s0.isPlaying = true)
    (hpos : s0.pos = ⟨0, 0, 0, 0⟩) (hval : validSong s0.sections) :
    stateAfter s0 (totalTicks
        (subdivisionSettings s0.audio.subdivision).clicksPerBeat
        s0.sections) = stop s0 := by
  have hc4 := clicksPerBeat_cases s0.audio.subdivision
  have hc := clicksPerBeat_pos s0.audio.subdivision
  have htot := totalTicks_pos _ hc s0.sections hval.1 hval.2
  obtain ⟨t, ht⟩ := Nat.exists_eq_succ_of_ne_zero (Nat.pos_iff_ne_zero.mp htot)
  rw [ht, stateAfter_succ,
    stateAfter_eq_setPos s0 hplay hpos hval t (by omega)]
  have hplay2 : (s0.setPos (posOf
      (subdivisionSettings s0.audio.subdivision).clicksPerBeat
      s0.sections t)).isPlaying = true := hplay
  rw [processSubdivision_of_playing _ hplay2]
  simp only [setPos_sections, setPos_audio, pos_setPos]
  rw [advancePos_posOf_last _ hc4 s0.sections hval.2 t (by omega)]
  rfl

theorem stateAfter_ge_total (s0 : SMState) (hplay : s0.isPlaying = true)
    (hpos : s0.pos = ⟨0, 0, 0, 0⟩) (hval : validSong s0.sections) :
    ∀ k, totalTicks
        (subdivisionSettings s0.audio.subdivision).clicksPerBeat
        s0.sections ≤ k →
      stateAfter s0 k = stop s0 := by
  intro k hk
  induction k, hk using Nat.le_induction with
  | base => exact stateAfter_total s0 hplay hpos hval
  | succ n hn ih =>
    rw [stateAfter_succ, ih, processSubdivision_not_playing _ rfl]

theorem outputAt_mid (s0 : SMState) (hplay : s0.isPlaying = true)
    (hpos : s0.pos = ⟨0, 0, 0, 0⟩) (hval : validSong s0.sections)
    (k : Nat)
    (hk : k + 1 < totalTicks
        (subdivisionSettings s0.audio.subdivision).clicksPerBeat
        s0.sections) :
    outputAt s0 k = tickSignals (s0.setPos (posOf
        (subdivisionSettings s0.audio.subdivision).clicksPerBeat
        s0.sections k)) := by
  have hc4 := clicksPerBeat_cases s0.audio.subdivision
  rw [outputAt, stateAfter_eq_setPos s0 hplay hpos hval k (by omega)]
  have hplay2 : (s0.setPos (posOf
      (subdivisionSettings s0.audio.subdivision).clicksPerBeat
      s0.sections k)).isPlaying = true := hplay
  rw [processSubdivision_of_playing _ hplay2]
  simp only [setPos_sections, setPos_audio, pos_setPos]
  rw [advancePos_posOf _ hc4 s0.sections hval.2 k hk]

theorem outputAt_last (s0 : SMState) (hplay : s0.isPlaying = true)
    (hpos : s0.pos = ⟨0, 0, 0, 0⟩) (hval : validSong s0.sections)
    (k : Nat)
    (hk : k + 1 = totalTicks
        (subdivisionSettings s0.audio.subdivision).clicksPerBeat
        s0.sections) :
    outputAt s0 k = { tickSignals (s0.setPos (posOf
        (subdivisionSettings s0.audio.subdivision).clicksPerBeat
        s0.sections k)) with songEnd := true } := by
  have hc4 := clicksPerBeat_cases s0.audio.subdivision
  rw [outputAt, stateAfter_eq_setPos s0 hplay hpos hval k (by omega)]
  have hplay2 : (s0.setPos (posOf
      (subdivisionSettings s0.audio.subdivision).clicksPerBeat
      s0.sections k)).isPlaying = true := hplay
  rw [processSubdivision_of_playing _ hplay2]
  simp only [setPos_sections, setPos_audio, pos_setPos]
  rw [advancePos_posOf_last _ hc4 s0.sections hval.2 k hk]

theorem outputAt_ge (s0 : SMState) (hplay : s0.isPlaying = true)
    (hpos : s0.pos = ⟨0, 0, 0, 0⟩) (hval : validSong s0.sections)
    (k : Nat)
    (hk : totalTicks
        (subdivisionSettings s0.audio.subdivision).clicksPerBeat
        s0.sections ≤ k) :
    outputAt s0 k = TickOutput.silent := by
  rw [outputAt, stateAfter_ge_total s0 hplay hpos hval k hk,
    processSubdivision_not_playing _ rfl]

theorem lt_length_of_getElem? {α : Type} (l : List α) (i : Nat) (a : α)
    (h : l[i]? = some a) : i < l.length :=
  (List.getElem?_eq_some.mp h).1

theorem mem_of_getElem? {α : Type} (l : List α) (i : Nat) (a : α)
    (h : l[i]? = some a) : a ∈ l := by
  obtain ⟨hlt, hv⟩ := List.getElem?_eq_some.mp h
  exact hv ▸ List.getElem_mem hlt

theorem tickSignals_songEnd (s : SMState) : (tickSignals s).songEnd = false :=
  rfl

/-- C1: from the origin of a valid loaded song with `isPlaying` true,
repeated `processSubdivision` calls signal song completion exactly once
(on the single call `k` with `k + 1 = totalTicks`), pass through each
section start exactly once, at the tick `cumTicks i`, whose values are
strictly increasing in `i` (so the sections are entered in list order,
none skipped or duplicated); and for a one-section song of `N` measures
at quarter subdivision the total tick count before completion is
exactly `4 * N`. -/
theorem run_enters_sections_once_and_completes_once (s0 : SMState)
    (hplay : s0.isPlaying = true) (hpos : s0.pos = ⟨0, 0, 0, 0⟩)
    (hval : validSong s0.sections) :
    (∀ k, ((outputAt s0 k).songEnd = true
        ↔ k + 1 = totalTicks
            (subdivisionSettings s0.audio.subdivision).clicksPerBeat
            s0.sections))
    ∧ (∀ i, i < s0.sections.length → ∀ k,
        ((stateAfter s0 k).isPlaying = true
            ∧ (stateAfter s0 k).pos = ⟨i, 0, 0, 0⟩)
          ↔ k = cumTicks
              (subdivisionSettings s0.audio.subdivision).clicksPerBeat
              s0.sections i)
    ∧ (∀ i sec, s0.sections[i]? = some sec →
        cumTicks (subdivisionSettings s0.audio.subdivision).clicksPerBeat
            s0.sections (i + 1)
          = cumTicks
              (subdivisionSettings s0.audio.subdivision).clicksPerBeat
              s0.sections i
            + sec.measures * 4
              * (subdivisionSettings s0.audio.subdivision).clicksPerBeat
        ∧ cumTicks (subdivisionSettings s0.audio.subdivision).clicksPerBeat
            s0.sections i
          < cumTicks
              (subdivisionSettings s0.audio.subdivision).clicksPerBeat
              s0.sections (i + 1))
    ∧ (∀ name N, s0.sections = [⟨name, N⟩]
        → s0.audio.subdivision = .quarter
        → totalTicks
            (subdivisionSettings s0.audio.subdivision).clicksPerBeat
            s0.sections = 4 * N) := by
  have hc4 := clicksPerBeat_cases s0.audio.subdivision
  have hc := clicksPerBeat_pos s0.audio.subdivision
  refine ⟨?_, ?_, ?_, ?_⟩
  · intro k
    by_cases hl : k + 1 = totalTicks
        (subdivisionSettings s0.audio.subdivision).clicksPerBeat s0.sections
    · rw [outputAt_last s0 hplay hpos hval k hl]
      simp [hl]
    · by_cases hm2 : k + 1 < totalTicks
          (subdivisionSettings s0.audio.subdivision).clicksPerBeat
          s0.sections
      · rw [outputAt_mid s0 hplay hpos hval k hm2]
        simp [tickSignals_songEnd, hl]
      · rw [outputAt_ge s0 hplay hpos hval k (by omega)]
        simp [TickOutput.silent, hl]
  · intro i hi k
    constructor
    · rintro ⟨hpk, hqk⟩
      by_cases hge : totalTicks
          (subdivisionSettings s0.audio.subdivision).clicksPerBeat
          s0.sections ≤ k
      · rw [stateAfter_ge_total s0 hplay hpos hval k hge] at hpk
        simp [stop, pause] at hpk
      · have hklt : k < totalTicks
            (subdivisionSettings s0.audio.subdivision).clicksPerBeat
            s0.sections := by omega
        rw [stateAfter_eq_setPos s0 hplay hpos hval k hklt,
          pos_setPos] at hqk
        have hr := rank_posOf _ hc4 s0.sections hval.2 k hklt
        rw [hqk] at hr
        simpa [rank] using hr.symm
    · intro hk
      cases hgl : s0.sections[i]? with
      | none =>
        rw [List.getElem?_eq_none_iff] at hgl
        omega
      | some sec =>
        have hm : 1 ≤ sec.measures :=
          hval.2 sec (mem_of_getElem? s0.sections i sec hgl)
        have hvp : validPos
            (subdivisionSettings s0.audio.subdivision).clicksPerBeat
            s0.sections ⟨i, 0, 0, 0⟩ :=
          ⟨sec, hgl, by dsimp only; omega, by dsimp only; norm_num, hc⟩
        obtain ⟨hpr, hlt⟩ := posOf_rank _ hc4 s0.sections hval.2 _ hvp
        have hrank0 : rank
            (subdivisionSettings s0.audio.subdivision).clicksPerBeat
            s0.sections ⟨i, 0, 0, 0⟩
            = cumTicks
                (subdivisionSettings s0.audio.subdivision).clicksPerBeat
                s0.sections i := by
          simp [rank]
        subst hk
        rw [← hrank0, stateAfter_eq_setPos s0 hplay hpos hval _ hlt]
        exact ⟨hplay, by rw [pos_setPos, hpr]⟩
  · intro i sec hsec
    have h1 := cumTicks_succ_of_get
      (subdivisionSettings s0.audio.subdivision).clicksPerBeat
      s0.sections i sec hsec
    refine ⟨h1, ?_⟩
    have hm : 1 ≤ sec.measures :=
      hval.2 sec (mem_of_getElem? s0.sections i sec hsec)
    have hmp : 0 < sec.measures * 4
        * (subdivisionSettings s0.audio.subdivision).clicksPerBeat :=
      Nat.mul_pos (Nat.mul_pos hm (by norm_num)) hc
    omega
  · intro name N hsec hq
    rw [hsec, hq]
    simp [totalTicks, subdivisionSettings]
    ring

/-- Witness for C1: a playing one-section two-measure quarter-note song
completes exactly on the eighth call. -/
theorem run_enters_sections_once_and_completes_once_witness :
    demoPlayingQuarter.isPlaying = true
    ∧ demoPlayingQuarter.pos = ⟨0, 0, 0, 0⟩
    ∧ validSong demoPlayingQuarter.sections
    ∧ (outputAt demoPlayingQuarter 7).songEnd = true
    ∧ totalTicks
        (subdivisionSettings
          demoPlayingQuarter.audio.subdivision).clicksPerBeat
        demoPlayingQuarter.sections = 4 * 2 := by
  have hval : validSong demoPlayingQuarter.sections := by
    constructor
    · decide
    · decide
  refine ⟨rfl, rfl, hval, ?_, ?_⟩
  · exact ((run_enters_sections_once_and_completes_once demoPlayingQuarter
      rfl rfl hval).1 7).mpr (by decide)
  · exact (run_enters_sections_once_and_completes_once demoPlayingQuarter
      rfl rfl hval).2.2.2 "Solo" 2 rfl rfl

/-- C4: with voice announcements enabled, the look-ahead "Next: ..."
announcement for the section after `i` fires exactly on the tick
`lookTick i` — the downbeat of section `i`'s last measure — with the
successor's name (plus measure count when enabled); no other tick ever
carries an announcement (in particular none for the final section); and
distinct sections have distinct look-ahead ticks. -/
theorem lookahead_fires_exactly_once (s0 : SMState)
    (hplay : s0.isPlaying = true) (hpos : s0.pos = ⟨0, 0, 0, 0⟩)
    (hval : validSong s0.sections)
    (hvoice : s0.audio.voiceEnabled = true) :
    (∀ i sec nextSec, s0.sections[i]? = some sec
      → s0.sections[i + 1]? = some nextSec
      → (stateAfter s0 (lookTick
            (subdivisionSettings s0.audio.subdivision).clicksPerBeat
            s0.sections i sec.measures)).pos
            = ⟨i, sec.measures - 1, 0, 0⟩
        ∧ (outputAt s0 (lookTick
            (subdivisionSettings s0.audio.subdivision).clicksPerBeat
            s0.sections i sec.measures)).announcement
            = some ("Next: " ++ nextSec.name
                ++ (if s0.audio.measureAnnouncementEnabled then
                      ", " ++ toString nextSec.measures ++ " measures"
                    else "")))
    ∧ (∀ k, (outputAt s0 k).announcement ≠ none →
        ∃ i sec, s0.sections[i]? = some sec
          ∧ i + 1 < s0.sections.length
          ∧ k = lookTick
              (subdivisionSettings s0.audio.subdivision).clicksPerBeat
              s0.sections i sec.measures)
    ∧ (∀ i j seci secj, s0.sections[i]? = some seci
        → s0.sections[j]? = some secj
        → lookTick (subdivisionSettings s0.audio.subdivision).clicksPerBeat
            s0.sections i seci.measures
          = lookTick (subdivisionSettings s0.audio.subdivision).clicksPerBeat
              s0.sections j secj.measures
        → i = j) := by
  have hc4 := clicksPerBeat_cases s0.audio.subdivision
  have hc := clicksPerBeat_pos s0.audio.subdivision
  refine ⟨?_, ?_, ?_⟩
  · intro i sec nextSec hsec hnext
    have hm : 1 ≤ sec.measures :=
      hval.2 sec (mem_of_getElem? s0.sections i sec hsec)
    have hlen : i + 1 < s0.sections.length :=
      lt_length_of_getElem? s0.sections (i + 1) nextSec hnext
    have hvp : validPos
        (subdivisionSettings s0.audio.subdivision).clicksPerBeat
        s0.sections ⟨i, sec.measures - 1, 0, 0⟩ :=
      ⟨sec, hsec, by dsimp only; omega, by dsimp only; norm_num, hc⟩
    obtain ⟨hpr, hlt⟩ := posOf_rank _ hc4 s0.sections hval.2 _ hvp
    have hrk : lookTick
        (subdivisionSettings s0.audio.subdivision).clicksPerBeat
        s0.sections i sec.measures
        = rank (subdivisionSettings s0.audio.subdivision).clicksPerBeat
            s0.sections ⟨i, sec.measures - 1, 0, 0⟩ := by
      simp [lookTick, rank]
    constructor
    · rw [hrk, stateAfter_eq_setPos s0 hplay hpos hval _ hlt, pos_setPos,
        hpr]
    · have hann : (outputAt s0 (rank
          (subdivisionSettings s0.audio.subdivision).clicksPerBeat
          s0.sections ⟨i, sec.measures - 1, 0, 0⟩)).announcement
          = (tickSignals (s0.setPos (posOf
              (subdivisionSettings s0.audio.subdivision).clicksPerBeat
              s0.sections (rank
                (subdivisionSettings s0.audio.subdivision).clicksPerBeat
                s0.sections
                ⟨i, sec.measures - 1, 0, 0⟩)))).announcement := by
        by_cases hlast : rank
            (subdivisionSettings s0.audio.subdivision).clicksPerBeat
            s0.sections ⟨i, sec.measures - 1, 0, 0⟩ + 1
            = totalTicks
                (subdivisionSettings s0.audio.subdivision).clicksPerBeat
                s0.sections
        · rw [outputAt_last s0 hplay hpos hval _ hlast]
        · rw [outputAt_mid s0 hplay hpos hval _ (by omega)]
      rw [hrk, hann, hpr]
      simp [tickSignals, SMState.setPos, hsec, hnext, hvoice, hlen,
        Nat.sub_add_cancel hm]
  · intro k hann
    by_cases hge : totalTicks
        (subdivisionSettings s0.audio.subdivision).clicksPerBeat
        s0.sections ≤ k
    · rw [outputAt_ge s0 hplay hpos hval k hge] at hann
      simp [TickOutput.silent] at hann
    · have hklt : k < totalTicks
          (subdivisionSettings s0.audio.subdivision).clicksPerBeat
          s0.sections := by omega
      have htr : (outputAt s0 k).announcement
          = (tickSignals (s0.setPos (posOf
              (subdivisionSettings s0.audio.subdivision).clicksPerBeat
              s0.sections k))).announcement := by
        by_cases hlast : k + 1 = totalTicks
            (subdivisionSettings s0.audio.subdivision).clicksPerBeat
            s0.sections
        · rw [outputAt_last s0 hplay hpos hval k hlast]
        · rw [outputAt_mid s0 hplay hpos hval k (by omega)]
      rw [htr] at hann
      obtain ⟨sec, hsec, hm2, hb2, hs2⟩ :=
        posOf_valid _ hc4 s0.sections hval.2 k hklt
      simp only [tickSignals, SMState.setPos, hsec] at hann
      by_cases hcond : ((posOf
            (subdivisionSettings s0.audio.subdivision).clicksPerBeat
            s0.sections k).beat == 0
          && (posOf
            (subdivisionSettings s0.audio.subdivision).clicksPerBeat
            s0.sections k).sub == 0) = true
          ∧ s0.audio.voiceEnabled = true
          ∧ (posOf
              (subdivisionSettings s0.audio.subdivision).clicksPerBeat
              s0.sections k).sec + 1 < s0.sections.length
          ∧ (posOf
              (subdivisionSettings s0.audio.subdivision).clicksPerBeat
              s0.sections k).meas + 1 = sec.measures
      · obtain ⟨hdb, _, hlen2, hmeq⟩ := hcond
        have hbeat : (posOf
            (subdivisionSettings s0.audio.subdivision).clicksPerBeat
            s0.sections k).beat = 0
            ∧ (posOf
              (subdivisionSettings s0.audio.subdivision).clicksPerBeat
              s0.sections k).sub = 0 := by
          simpa using hdb
        refine ⟨(posOf
            (subdivisionSettings s0.audio.subdivision).clicksPerBeat
            s0.sections k).sec, sec, hsec, hlen2, ?_⟩
        obtain ⟨hb0, hs0⟩ := hbeat
        have hr := rank_posOf _ hc4 s0.sections hval.2 k hklt
        simp only [rank] at hr
        simp only [lookTick]
        rcases hc4 with h | h | h | h <;>
          rw [h] at hr hmeq hb0 hs0 ⊢ <;> omega
      · rw [if_neg hcond] at hann
        exact absurd rfl hann
  · intro i j seci secj hi hj heq
    have hmi : 1 ≤ seci.measures :=
      hval.2 seci (mem_of_getElem? s0.sections i seci hi)
    have hmj : 1 ≤ secj.measures :=
      hval.2 secj (mem_of_getElem? s0.sections j secj hj)
    have hvpi : validPos
        (subdivisionSettings s0.audio.subdivision).clicksPerBeat
        s0.sections ⟨i, seci.measures - 1, 0, 0⟩ :=
      ⟨seci, hi, by dsimp only; omega, by dsimp only; norm_num, hc⟩
    have hvpj : validPos
        (subdivisionSettings s0.audio.subdivision).clicksPerBeat
        s0.sections ⟨j, secj.measures - 1, 0, 0⟩ :=
      ⟨secj, hj, by dsimp only; omega, by dsimp only; norm_num, hc⟩
    obtain ⟨hpi, _⟩ := posOf_rank _ hc4 s0.sections hval.2 _ hvpi
    obtain ⟨hpj, _⟩ := posOf_rank _ hc4 s0.sections hval.2 _ hvpj
    have hrki : lookTick
        (subdivisionSettings s0.audio.subdivision).clicksPerBeat
        s0.sections i seci.measures
        = rank (subdivisionSettings s0.audio.subdivision).clicksPerBeat
            s0.sections ⟨i, seci.measures - 1, 0, 0⟩ := by
      simp [lookTick, rank]
    have hrkj : lookTick
        (subdivisionSettings s0.audio.subdivision).clicksPerBeat
        s0.sections j secj.measures
        = rank (subdivisionSettings s0.audio.subdivision).clicksPerBeat
            s0.sections ⟨j, secj.measures - 1, 0, 0⟩ := by
      simp [lookTick, rank]
    have hpp : (⟨i, seci.measures - 1, 0, 0⟩ : Pos)
        = ⟨j, secj.measures - 1, 0, 0⟩ := by
      calc (⟨i, seci.measures - 1, 0, 0⟩ : Pos)
          = posOf (subdivisionSettings s0.audio.subdivision).clicksPerBeat
              s0.sections (rank
                (subdivisionSettings s0.audio.subdivision).clicksPerBeat
                s0.sections ⟨i, seci.measures - 1, 0, 0⟩) := hpi.symm
        _ = posOf (subdivisionSettings s0.audio.subdivision).clicksPerBeat
              s0.sections (rank
                (subdivisionSettings s0.audio.subdivision).clicksPerBeat
                s0.sections ⟨j, secj.measures - 1, 0, 0⟩) := by
              rw [← hrki, heq, hrkj]
        _ = ⟨j, secj.measures - 1, 0, 0⟩ := hpj
    simpa using congrArg Pos.sec hpp

/-- Witness for C4 at the two-section demo song: the look-ahead for
"Verse" fires on tick 4 (downbeat of Intro's last measure). -/
theorem lookahead_fires_exactly_once_witness :
    (⟨demoAM, true, 0, 0, 0, 0, some 0, 120, demoSong, "Demo", .quarter⟩
        : SMState).isPlaying = true
    ∧ validSong demoSong
    ∧ (outputAt
        (⟨demoAM, true, 0, 0, 0, 0, some 0, 120, demoSong, "Demo",
          .quarter⟩ : SMState)
        (lookTick 1 demoSong 0 2)).announcement
        = some "Next: Verse, 4 measures" := by
  have hval : validSong demoSong := ⟨by decide, by decide⟩
  refine ⟨rfl, hval, ?_⟩
  have h := (lookahead_fires_exactly_once
      (⟨demoAM, true, 0, 0, 0, 0, some 0, 120, demoSong, "Demo",
        .quarter⟩ : SMState) rfl rfl hval rfl).1 0 ⟨"Intro", 2⟩
      ⟨"Verse", 4⟩ (by decide) (by decide)
  simpa using h.2

end DrumHelper
